import Mathlib

/-!
# UCX: hook-mode selection, recursive spinlock, event set, TCP helpers

A shallow embedding of

* `src/ucm/mmap/mmap.h`      (`ucm_mmap_hook_mode`),
* `src/ucs/type/spinlock.h`  (the recursive spinlock),
* `src/ucs/sys/event_set.c`  (event mapping and `ucs_event_set_wait`),
* `src/uct/tcp/tcp_base.c`   (`ucs_tcp_base_set_syn_cnt`),
* `src/uct/tcp/tcp_net.c`    (`uct_tcp_netif_is_default`),

followed by the properties proved about them.

Conventions.  C `int` values are `Int`, bit masks are their 32-bit patterns as
`Nat`, pointers are `Nat`.  A call that spins forever in the given state
yields `none`.  Calls into the operating system are arguments of the model
(their results are arbitrary), and calls the code makes to callbacks or to the
operating system are returned as a list, in call order.
-/

namespace UCX

/-! ## Status codes -/

/-- The enumerators of `ucs_status_t` (declared in `ucs/type/status.h`) that the
embedded functions return.  Distinct enumerators are distinct values. -/
inductive ucs_status_t where
  | UCS_OK
  | UCS_INPROGRESS
  | UCS_ERR_IO_ERROR
  deriving DecidableEq, Repr

open ucs_status_t

/-! ## `ucm/mmap/mmap.h` -/

/-- The two enumerators of `ucm_mmap_hook_mode_t` that `mmap.h` names.  The
enumeration is declared in `ucm/api/ucm.h`; its numeric values are left
open. -/
structure ucm_mmap_hook_consts where
  UCM_MMAP_HOOK_RELOC  : Int
  UCM_MMAP_HOOK_BISTRO : Int
  deriving DecidableEq, Repr

/-- The part of `ucm_global_opts` that `ucm_mmap_hook_mode` reads. -/
structure ucm_global_config_t where
  mmap_hook_mode : Int
  deriving DecidableEq, Repr

/-- What `ucm_mmap_hook_mode` reads when it is called: the global options and
the value of the `RUNNING_ON_VALGRIND` expression (non-zero under Valgrind). -/
structure ucm_env where
  ucm_global_opts     : ucm_global_config_t
  RUNNING_ON_VALGRIND : Int
  deriving DecidableEq, Repr

/-- `ucm_mmap_hook_mode`:
`(RUNNING_ON_VALGRIND && (mmap_hook_mode == UCM_MMAP_HOOK_BISTRO)) ?
 UCM_MMAP_HOOK_RELOC : mmap_hook_mode`.  The function has no static storage:
it reads the environment and writes nothing. -/
def ucm_mmap_hook_mode (K : ucm_mmap_hook_consts) (env : ucm_env) : Int :=
  if env.RUNNING_ON_VALGRIND != 0 &&
      env.ucm_global_opts.mmap_hook_mode == K.UCM_MMAP_HOOK_BISTRO then
    K.UCM_MMAP_HOOK_RELOC
  else
    env.ucm_global_opts.mmap_hook_mode

/-- Two calls of `ucm_mmap_hook_mode` with a change of configuration between
them: the first call runs in `c1`, the configuration is then replaced by `c2`,
and the second call runs.  The pair holds the two returned modes. -/
def ucm_mmap_hook_mode_twice (K : ucm_mmap_hook_consts) (c1 c2 : ucm_env) :
    Int × Int :=
  let first := ucm_mmap_hook_mode K c1
  let env := c2
  let second := ucm_mmap_hook_mode K env
  (first, second)

/-- Build an environment from a requested mode and the Valgrind flag. -/
def ucm_env.mk2 (mode flag : Int) : ucm_env :=
  { ucm_global_opts := { mmap_hook_mode := mode }, RUNNING_ON_VALGRIND := flag }

/-- Sample numbering of the hook modes, used for concrete evaluations. -/
def sample_hook_consts : ucm_mmap_hook_consts :=
  { UCM_MMAP_HOOK_RELOC := 1, UCM_MMAP_HOOK_BISTRO := 2 }

/-! ## `ucs/type/spinlock.h`

Both builds are embedded: the flag `HAVE_PROGRESS64` selects the
`p64_spinlock_t` branches, its absence the `pthread_spinlock_t` branches. -/

/-- `INT_MAX` for the 32-bit C `int`. -/
def INT_MAX : Int := 2147483647

/-- The value a C `int` holds after an arithmetic result `x` is stored in it:
`x` reduced to the 32-bit two's complement range.  This is how `++` on an
`int` behaves in the compiled code when it overflows. -/
def int_wrap (x : Int) : Int :=
  (x + 2147483648) % 4294967296 - 2147483648

/-- Thread identifiers (`pthread_t`, an unsigned 64-bit word). -/
abbrev pthread_t := Nat

/-- `UCS_SPINLOCK_OWNER_NULL`, that is `((pthread_t)-1)`. -/
def UCS_SPINLOCK_OWNER_NULL : pthread_t := 2 ^ 64 - 1

/-- A successful operation on the underlying `pthread_spinlock_t`. -/
inductive spin_op where
  | acquire
  | release
  deriving DecidableEq, Repr

/-- `ucs_spinlock_t`.  `lock` is the `pthread_spinlock_t` (or `p64_spinlock_t`):
`true` while some thread holds it.  `history` is instrumentation: the acquisitions and releases
performed on the lock since it was initialised, oldest first. -/
structure ucs_spinlock_t where
  lock    : Bool
  history : List spin_op
  deriving DecidableEq, Repr

/-- `ucs_recursive_spinlock_t`.  `count` is a C `int`. -/
structure ucs_recursive_spinlock_t where
  super : ucs_spinlock_t
  count : Int
  owner : pthread_t
  deriving DecidableEq, Repr

/-- `UCS_SPINLOCK_FLAG_SHARED`, that is `UCS_BIT(0)`. -/
def UCS_SPINLOCK_FLAG_SHARED : Nat := 1

/-- `PTHREAD_PROCESS_PRIVATE` of `<pthread.h>` (Linux). -/
def PTHREAD_PROCESS_PRIVATE : Int := 0

/-- `PTHREAD_PROCESS_SHARED` of `<pthread.h>` (Linux). -/
def PTHREAD_PROCESS_SHARED : Int := 1

/-- `ucs_spinlock_init`.  With `HAVE_PROGRESS64`, `p64_spinlock_init` leaves the
lock free and `UCS_OK` is returned.  Otherwise `pthread_spin_init` gives the
return value of the library call for the chosen `lock_flags`; when that is zero
the lock is initialised (free), otherwise the lock memory is left as it was and
`UCS_ERR_IO_ERROR` is returned. -/
def ucs_spinlock_init (HAVE_PROGRESS64 : Bool) (pthread_spin_init : Int → Int)
    (lock : ucs_spinlock_t) (flags : Nat) : ucs_status_t × ucs_spinlock_t :=
  if HAVE_PROGRESS64 then
    (UCS_OK, { lock := false, history := [] })
  else
    let lock_flags :=
      if flags &&& UCS_SPINLOCK_FLAG_SHARED ≠ 0 then PTHREAD_PROCESS_SHARED
      else PTHREAD_PROCESS_PRIVATE
    let ret := pthread_spin_init lock_flags
    if ret != 0 then
      (UCS_ERR_IO_ERROR, lock)
    else
      (UCS_OK, { lock := false, history := [] })

/-- `ucs_recursive_spinlock_init`: `count = 0`, `owner = UCS_SPINLOCK_OWNER_NULL`,
then `ucs_spinlock_init` on the embedded spinlock. -/
def ucs_recursive_spinlock_init (HAVE_PROGRESS64 : Bool)
    (pthread_spin_init : Int → Int) (lock : ucs_recursive_spinlock_t) (flags : Nat) :
    ucs_status_t × ucs_recursive_spinlock_t :=
  let lock := { lock with count := 0 }
  let lock := { lock with owner := UCS_SPINLOCK_OWNER_NULL }
  let r := ucs_spinlock_init HAVE_PROGRESS64 pthread_spin_init lock.super flags
  (r.1, { lock with super := r.2 })

/-- `ucs_recursive_spin_is_owner`: `lock->owner == self`. -/
def ucs_recursive_spin_is_owner (lock : ucs_recursive_spinlock_t)
    (self : pthread_t) : Bool :=
  lock.owner == self

/-- `p64_spinlock_try_acquire`: one attempt to take the lock; `false` and no
change when the lock is held, otherwise the lock is taken and `true` is
returned. -/
def p64_spinlock_try_acquire (lock : ucs_spinlock_t) : Bool × ucs_spinlock_t :=
  if lock.lock then (false, lock)
  else (true, { lock := true, history := lock.history ++ [spin_op.acquire] })

/-- `pthread_spin_trylock`: non-zero and no change when the lock is held,
otherwise the lock is taken and zero is returned. -/
def pthread_spin_trylock (lock : ucs_spinlock_t) : Int × ucs_spinlock_t :=
  if lock.lock then (16, lock)
  else (0, { lock := true, history := lock.history ++ [spin_op.acquire] })

/-- `ucs_spin_lock`.  Without `HAVE_PROGRESS64` it is `pthread_spin_lock`: it
takes the lock when it is free; while the lock is held the caller spins, so the
call does not return in that state (`none`).  With `HAVE_PROGRESS64` it is one
call of `p64_spinlock_try_acquire` whose result is dropped: the call always
returns, with the lock taken only if it was free. -/
def ucs_spin_lock (HAVE_PROGRESS64 : Bool) (lock : ucs_spinlock_t) :
    Option ucs_spinlock_t :=
  if HAVE_PROGRESS64 then
    some (p64_spinlock_try_acquire lock).2
  else
    if lock.lock then none
    else some { lock := true, history := lock.history ++ [spin_op.acquire] }

/-- `ucs_recursive_spin_lock`, called by thread `self` (`pthread_self()`).
`++lock->count` is an increment of a C `int`. -/
def ucs_recursive_spin_lock (HAVE_PROGRESS64 : Bool) (lock : ucs_recursive_spinlock_t)
    (self : pthread_t) : Option ucs_recursive_spinlock_t :=
  if ucs_recursive_spin_is_owner lock self then
    some { lock with count := int_wrap (lock.count + 1) }
  else
    match ucs_spin_lock HAVE_PROGRESS64 lock.super with
    | none => none
    | some sup =>
      let lock := { lock with super := sup }
      let lock := { lock with owner := self }
      some { lock with count := int_wrap (lock.count + 1) }

/-- `ucs_spin_try_lock`: returns `0` when the lock is held, otherwise takes it
and returns `1`; through `p64_spinlock_try_acquire` with `HAVE_PROGRESS64`,
through `pthread_spin_trylock` without it. -/
def ucs_spin_try_lock (HAVE_PROGRESS64 : Bool) (lock : ucs_spinlock_t) :
    Int × ucs_spinlock_t :=
  if HAVE_PROGRESS64 then
    if (p64_spinlock_try_acquire lock).1 != true then
      (0, (p64_spinlock_try_acquire lock).2)
    else
      (1, (p64_spinlock_try_acquire lock).2)
  else
    if (pthread_spin_trylock lock).1 != 0 then
      (0, (pthread_spin_trylock lock).2)
    else
      (1, (pthread_spin_trylock lock).2)

/-- `ucs_recursive_spin_trylock`, called by thread `self`. -/
def ucs_recursive_spin_trylock (HAVE_PROGRESS64 : Bool)
    (lock : ucs_recursive_spinlock_t) (self : pthread_t) :
    Int × ucs_recursive_spinlock_t :=
  if ucs_recursive_spin_is_owner lock self then
    (1, { lock with count := int_wrap (lock.count + 1) })
  else
    let r := ucs_spin_try_lock HAVE_PROGRESS64 lock.super
    if r.1 == 0 then
      (0, { lock with super := r.2 })
    else
      let lock := { lock with super := r.2 }
      let lock := { lock with owner := self }
      (1, { lock with count := int_wrap (lock.count + 1) })

/-- `ucs_spin_unlock`, that is `pthread_spin_unlock` (`p64_spinlock_release`
with `HAVE_PROGRESS64`). -/
def ucs_spin_unlock (lock : ucs_spinlock_t) : ucs_spinlock_t :=
  { lock := false, history := lock.history ++ [spin_op.release] }

/-- `ucs_recursive_spin_unlock`: `--count`, and when the count reaches zero
clear the owner and release the underlying spinlock. -/
def ucs_recursive_spin_unlock (lock : ucs_recursive_spinlock_t) :
    ucs_recursive_spinlock_t :=
  let lock := { lock with count := lock.count - 1 }
  if lock.count == 0 then
    let lock := { lock with owner := UCS_SPINLOCK_OWNER_NULL }
    { lock with super := ucs_spin_unlock lock.super }
  else
    lock

/-! ### Threads using one lock

Each operation is one atomic step.  Besides the lock itself the system state
records, as instrumentation, which threads are inside the lock: a thread is
added once for every acquisition that returned to it and removed once for
every release it performed. -/

/-- An operation on the lock together with the thread that performs it. -/
inductive lock_call where
  | lock    (t : pthread_t)
  | trylock (t : pthread_t)
  | unlock  (t : pthread_t)
  deriving DecidableEq, Repr

/-- The lock and the threads currently inside it (one entry per nesting level). -/
structure lock_system where
  lock    : ucs_recursive_spinlock_t
  holders : List pthread_t
  deriving DecidableEq, Repr

/-- The system right after `ucs_recursive_spinlock_init` ran on the memory
`mem`: the lock it left behind, and nobody inside. -/
def lock_system.init (HAVE_PROGRESS64 : Bool) (pthread_spin_init : Int → Int)
    (mem : ucs_recursive_spinlock_t) (flags : Nat) : lock_system :=
  { lock := (ucs_recursive_spinlock_init HAVE_PROGRESS64 pthread_spin_init mem flags).2,
    holders := [] }

/-- One atomic step.  `none` when the step cannot be taken: the thread
identifier is `UCS_SPINLOCK_OWNER_NULL`, the caller of `unlock` is not the
current owner, or `lock` would spin. -/
def lock_system.step (HAVE_PROGRESS64 : Bool) (s : lock_system) :
    lock_call → Option lock_system
  | lock_call.lock t =>
    if t = UCS_SPINLOCK_OWNER_NULL then none
    else
      match ucs_recursive_spin_lock HAVE_PROGRESS64 s.lock t with
      | none => none
      | some l => some { lock := l, holders := t :: s.holders }
  | lock_call.trylock t =>
    if t = UCS_SPINLOCK_OWNER_NULL then none
    else
      let r := ucs_recursive_spin_trylock HAVE_PROGRESS64 s.lock t
      some { lock := r.2, holders := if r.1 = 0 then s.holders else t :: s.holders }
  | lock_call.unlock t =>
    if t = UCS_SPINLOCK_OWNER_NULL ∨ s.lock.owner ≠ t then none
    else
      some { lock := ucs_recursive_spin_unlock s.lock, holders := s.holders.erase t }

/-- Run a sequence of steps; `none` as soon as one of them cannot be taken. -/
def lock_system.run (HAVE_PROGRESS64 : Bool) (s : lock_system) :
    List lock_call → Option lock_system
  | [] => some s
  | c :: cs =>
    match s.step HAVE_PROGRESS64 c with
    | none => none
    | some s1 => lock_system.run HAVE_PROGRESS64 s1 cs

/-- Run a sequence of steps as `lock_system.run` does, but give up (`none`) as
soon as more than `INT_MAX` acquisitions are outstanding, that is as soon as
the nesting depth no longer fits the `int` counter. -/
def lock_system.run_bounded (HAVE_PROGRESS64 : Bool) (s : lock_system) :
    List lock_call → Option lock_system
  | [] => some s
  | c :: cs =>
    match s.step HAVE_PROGRESS64 c with
    | none => none
    | some s1 =>
      if (s1.holders.length : Int) ≤ INT_MAX then
        lock_system.run_bounded HAVE_PROGRESS64 s1 cs
      else none

/-- A system state is reachable when some sequence of steps leads to it from a
lock on which `ucs_recursive_spinlock_init` returned `UCS_OK`. -/
def lock_system.Reachable (HAVE_PROGRESS64 : Bool) (s : lock_system) : Prop :=
  ∃ (pthread_spin_init : Int → Int) (mem : ucs_recursive_spinlock_t) (flags : Nat)
    (cs : List lock_call),
    (ucs_recursive_spinlock_init HAVE_PROGRESS64 pthread_spin_init mem flags).1 = UCS_OK ∧
    (lock_system.init HAVE_PROGRESS64 pthread_spin_init mem flags).run
      HAVE_PROGRESS64 cs = some s

/-- A system state is reachable within the counter range when some sequence of
steps leads to it from a lock on which `ucs_recursive_spinlock_init` returned
`UCS_OK`, with never more than `INT_MAX` acquisitions outstanding on the
way. -/
def lock_system.ReachableBounded (HAVE_PROGRESS64 : Bool) (s : lock_system) : Prop :=
  ∃ (pthread_spin_init : Int → Int) (mem : ucs_recursive_spinlock_t) (flags : Nat)
    (cs : List lock_call),
    (ucs_recursive_spinlock_init HAVE_PROGRESS64 pthread_spin_init mem flags).1 = UCS_OK ∧
    (lock_system.init HAVE_PROGRESS64 pthread_spin_init mem flags).run_bounded
      HAVE_PROGRESS64 cs = some s

/-- Apply `ucs_recursive_spin_lock` `n` times in a row for thread `t`. -/
def lock_n (HAVE_PROGRESS64 : Bool) (t : pthread_t) :
    Nat → ucs_recursive_spinlock_t → Option ucs_recursive_spinlock_t
  | 0, l => some l
  | n + 1, l =>
    match ucs_recursive_spin_lock HAVE_PROGRESS64 l t with
    | none => none
    | some l1 => lock_n HAVE_PROGRESS64 t n l1

/-- Apply `ucs_recursive_spin_unlock` `n` times in a row. -/
def unlock_n : Nat → ucs_recursive_spinlock_t → ucs_recursive_spinlock_t
  | 0, l => l
  | n + 1, l => unlock_n n (ucs_recursive_spin_unlock l)

/-! ## `ucs/sys/event_set.c`

The build embedded here is the one with `HAVE_SYS_EPOLL_H`. -/

/-- Constants that `event_set.c` takes from headers: the `UCS_EVENT_SET_*`
flags of `ucs/sys/event_set.h`, the `EPOLL*` flags of `<sys/epoll.h>`, `EINTR`,
`UCS_ALLOCA_MAX_SIZE` and `sizeof(struct epoll_event)`.  `EPOLLEET` is the
identifier that `ucs_event_set_map_to_raw_events` assigns to `ev_et`. -/
structure event_set_consts where
  UCS_EVENT_SET_EVREAD         : Nat
  UCS_EVENT_SET_EVWRITE        : Nat
  UCS_EVENT_SET_EVERR          : Nat
  UCS_EVENT_SET_EDGE_TRIGGERED : Nat
  EPOLLIN             : Nat
  EPOLLOUT            : Nat
  EPOLLERR            : Nat
  EPOLLET             : Nat
  EPOLLEET            : Nat
  EINTR               : Int
  UCS_ALLOCA_MAX_SIZE : Nat
  sizeof_epoll_event  : Nat
  deriving DecidableEq, Repr

/-- The constants on Linux: `UCS_BIT(0)` .. `UCS_BIT(3)` for the event-set
flags, the `<sys/epoll.h>` values for the `EPOLL*` flags (`EPOLLEET` read as
`EPOLLET`), `EINTR = 4`, an alloca limit of 1200 bytes and a 12-byte
`struct epoll_event`. -/
def linux_consts : event_set_consts :=
  { UCS_EVENT_SET_EVREAD := 1, UCS_EVENT_SET_EVWRITE := 2, UCS_EVENT_SET_EVERR := 4,
    UCS_EVENT_SET_EDGE_TRIGGERED := 8,
    EPOLLIN := 1, EPOLLOUT := 4, EPOLLERR := 8, EPOLLET := 2 ^ 31, EPOLLEET := 2 ^ 31,
    EINTR := 4, UCS_ALLOCA_MAX_SIZE := 1200, sizeof_epoll_event := 12 }

/-- `ucs_sys_event_set_max_wait_events`:
`UCS_ALLOCA_MAX_SIZE / sizeof(struct epoll_event)`. -/
def ucs_sys_event_set_max_wait_events (K : event_set_consts) : Nat :=
  K.UCS_ALLOCA_MAX_SIZE / K.sizeof_epoll_event

set_option linter.unusedVariables false in
/-- `ucs_event_set_map_to_raw_events`.  As in the source, the branch for
`UCS_EVENT_SET_EVWRITE` ors in `ev_error`, and `ev_write` is assigned but not
used. -/
def ucs_event_set_map_to_raw_events (K : event_set_consts) (events : Nat) : Nat :=
  let raw_events := 0
  let ev_read  := K.EPOLLIN
  let ev_write := K.EPOLLOUT
  let ev_error := K.EPOLLERR
  let ev_et    := K.EPOLLEET
  let raw_events :=
    if events &&& K.UCS_EVENT_SET_EVREAD ≠ 0 then raw_events ||| ev_read else raw_events
  let raw_events :=
    if events &&& K.UCS_EVENT_SET_EVWRITE ≠ 0 then raw_events ||| ev_error else raw_events
  let raw_events :=
    if events &&& K.UCS_EVENT_SET_EVERR ≠ 0 then raw_events ||| ev_error else raw_events
  let raw_events :=
    if events &&& K.UCS_EVENT_SET_EDGE_TRIGGERED ≠ 0 then raw_events ||| ev_et
    else raw_events
  raw_events

/-- `ucs_event_set_map_to_events`. -/
def ucs_event_set_map_to_events (K : event_set_consts) (raw_events : Nat) : Nat :=
  let events := 0
  let events :=
    if raw_events &&& K.EPOLLIN ≠ 0 then events ||| K.UCS_EVENT_SET_EVREAD else events
  let events :=
    if raw_events &&& K.EPOLLOUT ≠ 0 then events ||| K.UCS_EVENT_SET_EVWRITE else events
  let events :=
    if raw_events &&& K.EPOLLERR ≠ 0 then events ||| K.UCS_EVENT_SET_EVERR else events
  let events :=
    if raw_events &&& K.EPOLLET ≠ 0 then events ||| K.UCS_EVENT_SET_EDGE_TRIGGERED
    else events
  events

/-- `struct ucs_sys_event_set`. -/
structure ucs_sys_event_set where
  event_fd : Int
  flags    : Nat
  deriving DecidableEq, Repr

/-- `struct epoll_event`: the raw event bits and the user data pointer. -/
structure epoll_event where
  events   : Nat
  data_ptr : Nat
  deriving DecidableEq, Repr

/-- What a call of `epoll_wait` leaves behind: its return value, `errno`, and
the contents of the `events` buffer by index. -/
structure epoll_wait_result where
  ret    : Int
  errno  : Int
  events : Nat → epoll_event

/-- One invocation `event_set_handler(callback_data, io_events, arg)`. -/
structure handler_call where
  callback_data : Nat
  io_events     : Nat
  arg           : Nat
  deriving DecidableEq, Repr

/-- What `ucs_event_set_wait` leaves behind: the returned status, the value
stored to `*num_events`, and the handler invocations in call order. -/
structure wait_result where
  status     : ucs_status_t
  num_events : Nat
  calls      : List handler_call
  deriving DecidableEq, Repr

/-- The loop `for (i = 0; i < nready; i++)` of `ucs_event_set_wait`, entered at
index `i` with `left = nready - i` iterations to go. -/
def ucs_event_set_wait_loop (K : event_set_consts) (events : Nat → epoll_event)
    (arg : Nat) : (left : Nat) → (i : Nat) → List handler_call
  | 0, _ => []
  | left + 1, i =>
    let io_events := ucs_event_set_map_to_events K (events i).events
    { callback_data := (events i).data_ptr, io_events := io_events, arg := arg } ::
      ucs_event_set_wait_loop K events arg left (i + 1)

/-- `ucs_event_set_wait`.  `epoll_wait` is the system call, given the epoll
descriptor, `maxevents` and the timeout; `num_events` is the value of
`*num_events` on entry.  The `ucs_assert` lines are not executed (they expand
to nothing unless assertions are compiled in); the conditions they state are
hypotheses of the properties that need them. -/
def ucs_event_set_wait (K : event_set_consts)
    (epoll_wait : Int → Nat → Int → epoll_wait_result)
    (event_set : ucs_sys_event_set) (num_events : Nat) (timeout_ms : Int)
    (arg : Nat) : wait_result :=
  let r := epoll_wait event_set.event_fd num_events timeout_ms
  let nready := r.ret
  if nready < 0 then
    if r.errno = K.EINTR then
      { status := UCS_INPROGRESS, num_events := 0, calls := [] }
    else
      { status := UCS_ERR_IO_ERROR, num_events := 0, calls := [] }
  else
    { status := UCS_OK, num_events := nready.toNat,
      calls := ucs_event_set_wait_loop K r.events arg nready.toNat 0 }

/-! ## `uct/tcp/tcp_base.c` -/

/-- `UCS_ULUNITS_AUTO` of `ucs/config/types.h`, the `size_t` value
`((size_t)-2)`. -/
def UCS_ULUNITS_AUTO : Nat := 2 ^ 64 - 2

/-- `IPPROTO_TCP` of `<netinet/in.h>`. -/
def IPPROTO_TCP : Int := 6

/-- `TCP_SYNCNT` of `<netinet/tcp.h>` (Linux). -/
def TCP_SYNCNT : Int := 7

/-- One call `ucs_socket_setopt(fd, level, optname, &optval, optlen)`. -/
structure setopt_call where
  fd      : Int
  level   : Int
  optname : Int
  optval  : Int
  optlen  : Nat
  deriving DecidableEq, Repr

/-- `ucs_tcp_base_set_syn_cnt`.  `apple` tells whether `__APPLE__` is defined,
`ucs_socket_setopt` is the socket-option call (its status is discarded).  The
comparison with `UCS_ULUNITS_AUTO` converts the `int` to `size_t`.  The result
is the returned status and the socket-option calls made. -/
def ucs_tcp_base_set_syn_cnt (apple : Bool)
    (ucs_socket_setopt : setopt_call → ucs_status_t) (fd tcp_syn_cnt : Int) :
    ucs_status_t × List setopt_call :=
  if (tcp_syn_cnt % 2 ^ 64).toNat ≠ UCS_ULUNITS_AUTO then
    if apple then
      (UCS_OK, [])
    else
      let call : setopt_call :=
        { fd := fd, level := IPPROTO_TCP, optname := TCP_SYNCNT,
          optval := tcp_syn_cnt, optlen := 4 }
      let _status := ucs_socket_setopt call
      (UCS_OK, [call])
  else
    (UCS_OK, [])

/-- An `epoll_wait` used in concrete evaluations: it reports two ready
descriptors, the first readable (`EPOLLIN`) with data 100, the second with an
error (`EPOLLERR`) with data 200. -/
def sample_epoll_wait_ready : Int → Nat → Int → epoll_wait_result :=
  fun _ _ _ =>
    { ret := 2, errno := 0,
      events := fun i => if i = 0 then { events := 1, data_ptr := 100 }
                         else { events := 8, data_ptr := 200 } }

/-- An `epoll_wait` used in concrete evaluations: it fails with `EINTR`. -/
def sample_epoll_wait_eintr : Int → Nat → Int → epoll_wait_result :=
  fun _ _ _ => { ret := -1, errno := 4, events := fun _ => { events := 0, data_ptr := 0 } }

/-- The handler invocation that `ucs_event_set_wait` makes for entry `e` of the
`events` buffer. -/
def handler_call_of (K : event_set_consts) (arg : Nat) (e : epoll_event) : handler_call :=
  { callback_data := e.data_ptr,
    io_events := ucs_event_set_map_to_events K e.events,
    arg := arg }

/-! ## Invariant of the lock system -/

/-- The invariant of the states reachable within the counter range in the
build without `HAVE_PROGRESS64`: either the lock is free (underlying spinlock
free, count zero, no owner, nobody inside), or it is held (underlying spinlock
taken, count between one and `INT_MAX`, a real owner, and the threads inside
are the owner, once per nesting level). -/
def lock_system.Inv (s : lock_system) : Prop :=
  (s.lock.super.lock = false ∧ s.lock.count = 0 ∧
      s.lock.owner = UCS_SPINLOCK_OWNER_NULL ∧ s.holders = []) ∨
  (s.lock.super.lock = true ∧ 1 ≤ s.lock.count ∧ s.lock.count ≤ INT_MAX ∧
      s.lock.owner ≠ UCS_SPINLOCK_OWNER_NULL ∧
      s.holders = List.replicate s.lock.count.toNat s.lock.owner)

/-- A lock memory image used in concrete evaluations (its contents are
overwritten by the initialisation). -/
def sample_mem : ucs_recursive_spinlock_t :=
  { super := { lock := true, history := [spin_op.release] }, count := 5, owner := 3 }

/-- A `pthread_spin_init` that succeeds, used in concrete evaluations. -/
def sample_spin_init : Int → Int := fun _ => 0

/-! ## `uct/tcp/tcp_net.c`

Characters are their byte values; a `char` buffer is the list of bytes it
holds up to (not including) the terminating NUL that the library wrote. -/

/-- The C string held in a buffer: the bytes before the first NUL byte. -/
def cstr (buf : List Nat) : List Nat :=
  buf.takeWhile (fun c => c ≠ 0)

/-- `strchr(s, c)`: the offset of the first occurrence of `c` in the C string,
or `none` for `NULL`. -/
def strchr (s : List Nat) (c : Nat) : Option Nat :=
  if c ∈ cstr s then some ((cstr s).indexOf c) else none

/-- `strcmp(a, b)` as far as the code uses it: zero exactly when the two C
strings are equal. -/
def strcmp (a b : List Nat) : Int :=
  if cstr a = cstr b then 0 else 1

/-- The bytes one `fgets` call moves from the stream into the buffer when at
most `n` bytes fit: bytes are taken until a newline (byte 10) has been taken,
`n` bytes have been taken, or the stream ends.  The result is the bytes taken
and the rest of the stream. -/
def fgets_read : Nat → List Nat → List Nat × List Nat
  | 0, stream => ([], stream)
  | _ + 1, [] => ([], [])
  | n + 1, c :: stream =>
    if c = 10 then ([c], stream)
    else ((fgets_read n stream).1.cons c, (fgets_read n stream).2)

/-- `fgets(str, size, f)`: `none` for `NULL` (end of file, nothing read; the
buffer is then left as it was), otherwise the new buffer contents and the rest
of the stream.  A read error ends the stream like an end of file. -/
def fgets (size : Nat) (stream : List Nat) : Option (List Nat × List Nat) :=
  if stream = [] then none else some (fgets_read (size - 1) stream)

/-- What a call `sscanf(str, "%s %*x %*x %*d %*d %*d %*d %x", name, &netmask)`
leaves behind: its return value, and the values it stored to `name` and to
`netmask` (`none` where it stored nothing). -/
structure sscanf_result where
  ret     : Int
  name    : Option (List Nat)
  netmask : Option Nat
  deriving DecidableEq, Repr

/-- What `uct_tcp_netif_is_default` leaves behind: the returned status, the
value of `*result_p` at return, and the values stored to `*result_p`, in the
order of the stores. -/
structure netif_is_default_result where
  status   : ucs_status_t
  result_p : Int
  stores   : List Int
  deriving DecidableEq, Repr

/-- The inner loop
`while ((strchr(str, '\n') == NULL) && (fgets(str, sizeof(str), f) != NULL));`
of `uct_tcp_netif_is_default`.  The result is the buffer and the stream when
the loop ends; `none` only when the iteration bound `fuel` is used up. -/
def skip_rest_of_line : (fuel : Nat) → (str stream : List Nat) →
    Option (List Nat × List Nat)
  | 0, _, _ => none
  | fuel + 1, str, stream =>
    if strchr str 10 = none then
      match fgets 128 stream with
      | none => some (str, stream)
      | some r => skip_rest_of_line fuel r.1 r.2
    else
      some (str, stream)

/-- The local variables of `uct_tcp_netif_is_default` that live across loop
iterations, together with `*result_p` and the record of stores to it. -/
structure netif_locals where
  name     : List Nat
  netmask  : Nat
  result_p : Int
  stores   : List Int
  deriving DecidableEq, Repr

/-- The loop `while (fgets(str, sizeof(str), f) != NULL)` of
`uct_tcp_netif_is_default`, with `sscanf` the library call on the C string in
`str`.  The result is the state when the loop ends (by end of file or by
`break`); `none` only when the iteration bound `fuel` is used up. -/
def netif_is_default_loop (sscanf : List Nat → sscanf_result) (if_name : List Nat) :
    (fuel : Nat) → (stream : List Nat) → netif_locals → Option netif_locals
  | 0, _, _ => none
  | fuel + 1, stream, v =>
    match fgets 128 stream with
    | none => some v
    | some r =>
      let str := r.1
      let scanned := sscanf (cstr str)
      let ret := scanned.ret
      let v := { v with name := scanned.name.getD v.name,
                        netmask := scanned.netmask.getD v.netmask }
      if ret = 3 ∧ strcmp v.name if_name = 0 ∧ v.netmask = 0 then
        some { v with result_p := 1, stores := v.stores ++ [1] }
      else
        match skip_rest_of_line fuel str r.2 with
        | none => none
        | some line => netif_is_default_loop sscanf if_name fuel line.2 v

/-- `uct_tcp_netif_is_default`.  `fopen` is the outcome of opening
`/proc/net/route`: `none` for `NULL`, otherwise the bytes of the file.
`name0`, `netmask0` and `result0` are the values that the uninitialised locals
and `*result_p` hold on entry.  Every successful `fgets` takes at least one
byte, so the number of bytes of the file plus one bounds the iterations. -/
def uct_tcp_netif_is_default (sscanf : List Nat → sscanf_result)
    (fopen : Option (List Nat)) (if_name : List Nat)
    (name0 : List Nat) (netmask0 : Nat) (result0 : Int) :
    Option netif_is_default_result :=
  match fopen with
  | none => some { status := UCS_ERR_IO_ERROR, result_p := result0, stores := [] }
  | some f =>
    match netif_is_default_loop sscanf if_name (f.length + 1) f
        { name := name0, netmask := netmask0, result_p := result0, stores := [] } with
    | none => none
    | some v =>
      let v := { v with result_p := 0, stores := v.stores ++ [0] }
      some { status := UCS_OK, result_p := v.result_p, stores := v.stores }

/-- `isspace` in the C locale. -/
def isspace (c : Nat) : Bool :=
  c = 32 || (9 ≤ c && c ≤ 13)

/-- The value of a hexadecimal digit character. -/
def hex_digit (c : Nat) : Option Nat :=
  if 48 ≤ c ∧ c ≤ 57 then some (c - 48)
  else if 97 ≤ c ∧ c ≤ 102 then some (c - 87)
  else if 65 ≤ c ∧ c ≤ 70 then some (c - 55)
  else none

/-- The value of a decimal digit character. -/
def dec_digit (c : Nat) : Option Nat :=
  if 48 ≤ c ∧ c ≤ 57 then some (c - 48) else none

/-- Read the longest run of digits, accumulating its value. -/
def take_digits (digit : Nat → Option Nat) (base : Nat) : List Nat → Nat → Nat × List Nat
  | [], acc => (acc, [])
  | c :: s, acc =>
    match digit c with
    | some d => take_digits digit base s (acc * base + d)
    | none => (acc, c :: s)

/-- One numeric conversion on unsigned input: skip white space, then read at
least one digit; `none` when no digit is there. -/
def scan_uint (digit : Nat → Option Nat) (base : Nat) (s : List Nat) :
    Option (Nat × List Nat) :=
  match s.dropWhile isspace with
  | [] => none
  | c :: rest =>
    if (digit c).isSome then some (take_digits digit base (c :: rest) 0) else none

/-- A scanner for the format `"%s %*x %*x %*d %*d %*d %*d %x"` on input whose
numeric fields are unsigned and carry no `0x` prefix, the way
`/proc/net/route` prints them, used in concrete evaluations.  It returns the
number of values stored (the suppressed conversions store nothing), or `-1`
when the input ends before the first conversion. -/
def sscanf_route (s : List Nat) : sscanf_result :=
  match s.dropWhile isspace with
  | [] => { ret := -1, name := none, netmask := none }
  | c :: rest =>
    let name := (c :: rest).takeWhile (fun x => !isspace x)
    let after := (c :: rest).dropWhile (fun x => !isspace x)
    let skipped :=
      (scan_uint hex_digit 16 after).bind fun r1 =>
      (scan_uint hex_digit 16 r1.2).bind fun r2 =>
      (scan_uint dec_digit 10 r2.2).bind fun r3 =>
      (scan_uint dec_digit 10 r3.2).bind fun r4 =>
      (scan_uint dec_digit 10 r4.2).bind fun r5 =>
      (scan_uint dec_digit 10 r5.2).bind fun r6 =>
      scan_uint hex_digit 16 r6.2
    match skipped with
    | none => { ret := 1, name := some name, netmask := none }
    | some r => { ret := 2, name := some name, netmask := some (r.1 % 2 ^ 32) }

/-- The bytes of a string literal. -/
def bytes (s : String) : List Nat :=
  s.toList.map Char.toNat

/-- A routing table used in concrete evaluations: the header line and a
default route (destination and mask zero) through `eth0`. -/
def sample_route_file : List Nat :=
  bytes "Iface\tDestination\tGateway \tFlags\tRefCnt\tUse\tMetric\tMask\t\tMTU\tWindow\tIRTT\n" ++
  bytes "eth0\t00000000\t0101A8C0\t0003\t0\t0\t100\t00000000\t0\t0\t0\n"

/-! # Properties -/

/-! ## Hook mode -/

/-- C1: for every requested mode and every value of the Valgrind flag,
`ucm_mmap_hook_mode` returns `UCM_MMAP_HOOK_RELOC` when the flag is set and the
requested mode is `UCM_MMAP_HOOK_BISTRO`, and the requested mode otherwise. -/
theorem C1_hook_mode_downgrade (K : ucm_mmap_hook_consts) (m v : Int) :
    ucm_mmap_hook_mode K (ucm_env.mk2 m v) =
      if v ≠ 0 ∧ m = K.UCM_MMAP_HOOK_BISTRO then K.UCM_MMAP_HOOK_RELOC else m := by
  unfold ucm_mmap_hook_mode ucm_env.mk2
  by_cases hv : v = 0 <;> by_cases hm : m = K.UCM_MMAP_HOOK_BISTRO <;> simp [hv, hm]

/-- C2 (as stated, refuted): with relocation numbered 1 and instruction
patching numbered 2, a first call under (mode 2, no Valgrind) returns 2, and
after the configuration changes to (mode 1, no Valgrind) the second call
returns 1, not the mode of the first call. -/
theorem C2_second_call_differs :
    (ucm_mmap_hook_mode_twice sample_hook_consts
        (ucm_env.mk2 2 0) (ucm_env.mk2 1 0)).1 = 2 ∧
    (ucm_mmap_hook_mode_twice sample_hook_consts
        (ucm_env.mk2 2 0) (ucm_env.mk2 1 0)).2 = 1 ∧
    ¬ ((ucm_mmap_hook_mode_twice sample_hook_consts
        (ucm_env.mk2 2 0) (ucm_env.mk2 1 0)).2 =
       (ucm_mmap_hook_mode_twice sample_hook_consts
        (ucm_env.mk2 2 0) (ucm_env.mk2 1 0)).1) := by
  decide

/-- C2 (amended): nothing is cached.  When `ucm_mmap_hook_mode` is evaluated
under `c1` and again after the configuration changed to `c2`, the second call
returns the mode determined by `c2` alone (relocation when the Valgrind flag
of `c2` is set and its requested mode is instruction patching, the requested
mode of `c2` otherwise), whatever `c1` was; two calls under one unchanged
configuration return the same mode. -/
theorem C2_mode_recomputed_each_call (K : ucm_mmap_hook_consts) (c1 c2 : ucm_env) :
    (ucm_mmap_hook_mode_twice K c1 c2).2 =
      (if c2.RUNNING_ON_VALGRIND ≠ 0 ∧
          c2.ucm_global_opts.mmap_hook_mode = K.UCM_MMAP_HOOK_BISTRO
        then K.UCM_MMAP_HOOK_RELOC else c2.ucm_global_opts.mmap_hook_mode) ∧
    (ucm_mmap_hook_mode_twice K c1 c2).2 = (ucm_mmap_hook_mode_twice K c2 c2).2 ∧
    (ucm_mmap_hook_mode_twice K c2 c2).1 = (ucm_mmap_hook_mode_twice K c2 c2).2 := by
  refine ⟨?_, rfl, rfl⟩
  unfold ucm_mmap_hook_mode_twice ucm_mmap_hook_mode
  by_cases hv : c2.RUNNING_ON_VALGRIND = 0 <;>
    by_cases hm : c2.ucm_global_opts.mmap_hook_mode = K.UCM_MMAP_HOOK_BISTRO <;>
    simp [hv, hm]

/-! ## Recursive spinlock -/

theorem int_wrap_of_range (x : Int) (h1 : -2147483648 ≤ x) (h2 : x ≤ INT_MAX) :
    int_wrap x = x := by
  unfold INT_MAX at h2
  unfold int_wrap
  omega

theorem int_wrap_add (a b : Int) : int_wrap (int_wrap a + b) = int_wrap (a + b) := by
  unfold int_wrap
  omega

theorem init_ok_state (p64 : Bool) (f : Int → Int) (mem : ucs_recursive_spinlock_t)
    (flags : Nat)
    (hok : (ucs_recursive_spinlock_init p64 f mem flags).1 = UCS_OK) :
    (ucs_recursive_spinlock_init p64 f mem flags).2 =
      { super := { lock := false, history := [] }, count := 0,
        owner := UCS_SPINLOCK_OWNER_NULL } := by
  unfold ucs_recursive_spinlock_init ucs_spinlock_init at hok ⊢
  cases p64 with
  | true => simp
  | false =>
    simp only [Bool.false_eq_true, if_false] at hok ⊢
    generalize f (if flags &&& UCS_SPINLOCK_FLAG_SHARED ≠ 0 then PTHREAD_PROCESS_SHARED
      else PTHREAD_PROCESS_PRIVATE) = ret at hok ⊢
    by_cases h : ret = 0
    · simp [h]
    · simp [h] at hok

theorem lock_by_owner (p64 : Bool) (l : ucs_recursive_spinlock_t) (t : pthread_t)
    (ho : l.owner = t) :
    ucs_recursive_spin_lock p64 l t =
      some { super := l.super, count := int_wrap (l.count + 1), owner := t } := by
  simp [ucs_recursive_spin_lock, ucs_recursive_spin_is_owner, ho]

theorem lock_on_free (p64 : Bool) (l : ucs_recursive_spinlock_t) (t : pthread_t)
    (ho : l.owner ≠ t) (hf : l.super.lock = false) :
    ucs_recursive_spin_lock p64 l t =
      some { super := { lock := true, history := l.super.history ++ [spin_op.acquire] },
             count := int_wrap (l.count + 1), owner := t } := by
  cases p64 <;>
    simp [ucs_recursive_spin_lock, ucs_recursive_spin_is_owner, ucs_spin_lock,
      p64_spinlock_try_acquire, ho, hf]

theorem lock_on_held_pthread (l : ucs_recursive_spinlock_t) (t : pthread_t)
    (ho : l.owner ≠ t) (hh : l.super.lock = true) :
    ucs_recursive_spin_lock false l t = none := by
  simp [ucs_recursive_spin_lock, ucs_recursive_spin_is_owner, ucs_spin_lock, ho, hh]

theorem lock_on_held_progress64 (l : ucs_recursive_spinlock_t) (t : pthread_t)
    (ho : l.owner ≠ t) (hh : l.super.lock = true) :
    ucs_recursive_spin_lock true l t =
      some { super := l.super, count := int_wrap (l.count + 1), owner := t } := by
  simp [ucs_recursive_spin_lock, ucs_recursive_spin_is_owner, ucs_spin_lock,
    p64_spinlock_try_acquire, ho, hh]

theorem trylock_by_owner (p64 : Bool) (l : ucs_recursive_spinlock_t) (t : pthread_t)
    (ho : l.owner = t) :
    ucs_recursive_spin_trylock p64 l t =
      (1, { super := l.super, count := int_wrap (l.count + 1), owner := t }) := by
  simp [ucs_recursive_spin_trylock, ucs_recursive_spin_is_owner, ho]

theorem trylock_on_free (p64 : Bool) (l : ucs_recursive_spinlock_t) (t : pthread_t)
    (ho : l.owner ≠ t) (hf : l.super.lock = false) :
    ucs_recursive_spin_trylock p64 l t =
      (1, { super := { lock := true, history := l.super.history ++ [spin_op.acquire] },
            count := int_wrap (l.count + 1), owner := t }) := by
  cases p64 <;>
    simp [ucs_recursive_spin_trylock, ucs_recursive_spin_is_owner, ucs_spin_try_lock,
      p64_spinlock_try_acquire, pthread_spin_trylock, ho, hf]

theorem trylock_on_held (p64 : Bool) (l : ucs_recursive_spinlock_t) (t : pthread_t)
    (ho : l.owner ≠ t) (hh : l.super.lock = true) :
    ucs_recursive_spin_trylock p64 l t = (0, l) := by
  cases p64 <;>
    simp [ucs_recursive_spin_trylock, ucs_recursive_spin_is_owner, ucs_spin_try_lock,
      p64_spinlock_try_acquire, pthread_spin_trylock, ho, hh]

theorem inv_init (f : Int → Int) (mem : ucs_recursive_spinlock_t) (flags : Nat)
    (hok : (ucs_recursive_spinlock_init false f mem flags).1 = UCS_OK) :
    (lock_system.init false f mem flags).Inv := by
  left
  simp [lock_system.init, init_ok_state false f mem flags hok]

theorem replicate_erase_self (n : Nat) (t : pthread_t) :
    (List.replicate (n + 1) t).erase t = List.replicate n t := by
  simp [List.replicate_succ]

theorem toNat_succ_of_one_le (c : Int) (h : 1 ≤ c) : (c + 1).toNat = c.toNat + 1 := by
  omega

theorem inv_step (s s1 : lock_system) (c : lock_call) (hi : s.Inv)
    (hs : s.step false c = some s1) (hb : (s1.holders.length : Int) ≤ INT_MAX) :
    s1.Inv := by
  cases c with
  | lock t =>
    simp only [lock_system.step] at hs
    split at hs
    · exact absurd hs (by simp)
    · rename_i ht
      rcases hi with ⟨hl, hc, ho, hh⟩ | ⟨hl, hc, hm, ho, hh⟩
      · have hne : s.lock.owner ≠ t := by rw [ho]; exact fun h => ht h.symm
        rw [lock_on_free false _ t hne hl] at hs
        simp only [Option.some.injEq] at hs
        subst hs
        right
        have h1 : int_wrap (s.lock.count + 1) = 1 := by rw [hc]; decide
        simp only [h1, hh]
        exact ⟨trivial, le_refl _, by decide, ht, rfl⟩
      · by_cases hot : s.lock.owner = t
        · rw [lock_by_owner false _ t hot] at hs
          simp only [Option.some.injEq] at hs
          subst hs
          have hlen : (s.lock.count.toNat : Int) + 1 ≤ INT_MAX := by
            simpa [hh] using hb
          have hw : int_wrap (s.lock.count + 1) = s.lock.count + 1 :=
            int_wrap_of_range _ (by omega) (by omega)
          right
          simp only [hw]
          refine ⟨hl, by omega, by omega, by simpa [hot] using ho, ?_⟩
          rw [hh, toNat_succ_of_one_le _ hc, List.replicate_succ, hot]
        · rw [lock_on_held_pthread _ t hot hl] at hs
          exact absurd hs (by simp)
  | trylock t =>
    simp only [lock_system.step] at hs
    split at hs
    · exact absurd hs (by simp)
    · rename_i ht
      simp only [Option.some.injEq] at hs
      rcases hi with ⟨hl, hc, ho, hh⟩ | ⟨hl, hc, hm, ho, hh⟩
      · have hne : s.lock.owner ≠ t := by rw [ho]; exact fun h => ht h.symm
        rw [trylock_on_free false _ t hne hl] at hs
        subst hs
        right
        have h1 : int_wrap (s.lock.count + 1) = 1 := by rw [hc]; decide
        simp only [h1, hh, one_ne_zero, if_false]
        exact ⟨trivial, le_refl _, by decide, ht, rfl⟩
      · by_cases hot : s.lock.owner = t
        · rw [trylock_by_owner false _ t hot] at hs
          subst hs
          have hlen : (s.lock.count.toNat : Int) + 1 ≤ INT_MAX := by
            simpa [hh] using hb
          have hw : int_wrap (s.lock.count + 1) = s.lock.count + 1 :=
            int_wrap_of_range _ (by omega) (by omega)
          right
          simp only [hw, one_ne_zero, if_false]
          refine ⟨hl, by omega, by omega, by simpa [hot] using ho, ?_⟩
          rw [hh, toNat_succ_of_one_le _ hc, List.replicate_succ, hot]
        · rw [trylock_on_held false _ t hot hl] at hs
          subst hs
          right
          exact ⟨hl, hc, hm, ho, by simpa using hh⟩
  | unlock t =>
    simp only [lock_system.step] at hs
    split at hs
    · exact absurd hs (by simp)
    · rename_i hg
      simp only [not_or, not_not] at hg
      obtain ⟨ht, hot⟩ := hg
      simp only [Option.some.injEq] at hs
      subst hs
      rcases hi with ⟨hl, hc, ho, hh⟩ | ⟨hl, hc, hm, ho, hh⟩
      · exact absurd (hot.symm.trans ho) ht
      · by_cases h1 : s.lock.count = 1
        · left
          simp [ucs_recursive_spin_unlock, ucs_spin_unlock, h1, hh, hot]
        · right
          have hne : ¬ (s.lock.count - 1 = 0) := by omega
          simp only [ucs_recursive_spin_unlock, beq_iff_eq, hne, if_false]
          refine ⟨hl, by omega, by omega, ho, ?_⟩
          obtain ⟨k, hk⟩ : ∃ k : Nat, s.lock.count.toNat = k + 1 :=
            ⟨s.lock.count.toNat - 1, by omega⟩
          have hk2 : (s.lock.count - 1).toNat = k := by omega
          rw [hh, hk, hk2, hot, replicate_erase_self]

theorem inv_run_bounded (cs : List lock_call) (s s1 : lock_system) (hi : s.Inv)
    (hr : s.run_bounded false cs = some s1) : s1.Inv := by
  induction cs generalizing s with
  | nil =>
    simp only [lock_system.run_bounded, Option.some.injEq] at hr
    exact hr ▸ hi
  | cons c cs ih =>
    simp only [lock_system.run_bounded] at hr
    cases hstep : s.step false c with
    | none => simp [hstep] at hr
    | some s2 =>
      simp only [hstep] at hr
      split at hr
      · rename_i hb
        exact ih s2 (inv_step s s2 c hi hstep hb) hr
      · exact absurd hr (by simp)

theorem inv_of_reachable_bounded (s : lock_system) (hr : s.ReachableBounded false) :
    s.Inv := by
  obtain ⟨f, mem, flags, cs, hok, h⟩ := hr
  exact inv_run_bounded cs _ s (inv_init f mem flags hok) h

theorem replicate_append_cons (k : Nat) (t : pthread_t) (l : List pthread_t) :
    List.replicate k t ++ t :: l = t :: (List.replicate k t ++ l) := by
  induction k with
  | zero => rfl
  | succ k ih => simp [List.replicate_succ, ih]

theorem run_cons_of_step (p64 : Bool) (s s1 : lock_system) (c : lock_call)
    (cs : List lock_call) (h : s.step p64 c = some s1) :
    s.run p64 (c :: cs) = s1.run p64 cs := by
  simp only [lock_system.run, h]

theorem run_lock_by_owner (p64 : Bool) (t : pthread_t) (k : Nat) (s : lock_system)
    (ht : t ≠ UCS_SPINLOCK_OWNER_NULL) (ho : s.lock.owner = t) (h0 : 0 ≤ s.lock.count)
    (hk : s.lock.count + k ≤ INT_MAX) :
    s.run p64 (List.replicate k (lock_call.lock t)) =
      some { lock := { super := s.lock.super, count := s.lock.count + k, owner := t },
             holders := List.replicate k t ++ s.holders } := by
  induction k generalizing s with
  | zero =>
    cases s with
    | mk l h =>
      cases l with
      | mk sup c o => simp_all [lock_system.run]
  | succ k ih =>
    have hw : int_wrap (s.lock.count + 1) = s.lock.count + 1 :=
      int_wrap_of_range _ (by omega) (by push_cast at hk; omega)
    simp only [List.replicate_succ, lock_system.run, lock_system.step, ht, if_false,
      lock_by_owner p64 _ t ho, hw]
    rw [ih _ rfl (by simp only; omega) (by simp only; push_cast at hk; omega)]
    simp only [replicate_append_cons, Option.some.injEq, lock_system.mk.injEq,
      ucs_recursive_spinlock_t.mk.injEq, List.cons_append, true_and, and_true]
    push_cast
    ring

/-- C3 (as stated, refuted): in the build without `HAVE_PROGRESS64`, 2147483647
lock calls by thread 7 on a fresh lock lead to the state with owner 7 and
`count = INT_MAX`; the next lock call by the owner does not add one to the
count: the `int` overflows and the count becomes -2147483648. -/
theorem C3_count_overflows_at_int_max :
    lock_system.Reachable false
      { lock := { super := { lock := true, history := [spin_op.acquire] },
                  count := 2147483647, owner := 7 },
        holders := List.replicate 2147483646 7 ++ [7] } ∧
    ucs_recursive_spin_lock false
        { super := { lock := true, history := [spin_op.acquire] },
          count := 2147483647, owner := 7 } 7 =
      some { super := { lock := true, history := [spin_op.acquire] },
             count := -2147483648, owner := 7 } ∧
    ¬ (ucs_recursive_spin_lock false
        { super := { lock := true, history := [spin_op.acquire] },
          count := 2147483647, owner := 7 } 7 =
      some { super := { lock := true, history := [spin_op.acquire] },
             count := 2147483647 + 1, owner := 7 }) := by
  refine ⟨⟨sample_spin_init, sample_mem, 0,
    lock_call.lock 7 :: List.replicate 2147483646 (lock_call.lock 7), by decide, ?_⟩,
    by decide, by decide⟩
  have hstep : (lock_system.init false sample_spin_init sample_mem 0).step false
      (lock_call.lock 7) =
      some { lock := { super := { lock := true, history := [spin_op.acquire] },
                       count := 1, owner := 7 }, holders := [7] } := by decide
  rw [run_cons_of_step false _ _ _ _ hstep,
    run_lock_by_owner false 7 2147483646 _ (by decide) rfl (by decide) (by decide)]
  rfl

/-- C3 (amended): in the build without `HAVE_PROGRESS64`, in every state
reachable from `ucs_recursive_spinlock_init` by lock/trylock/unlock steps with
never more than `INT_MAX` acquisitions outstanding, for every calling thread
`t`: if `t` owns the lock and `count < INT_MAX`, `ucs_recursive_spin_lock` adds
exactly one to `count` and changes nothing else (owner and underlying spinlock
untouched); if `t` does not own the lock, the call completes exactly when the
underlying spinlock is free (it spins while the spinlock is held), and it then
has acquired the underlying spinlock and leaves `owner = t` with
`count = 1`. -/
theorem C3_recursive_spin_lock_in_range (s : lock_system) (t : pthread_t)
    (hr : s.ReachableBounded false) :
    (s.lock.owner = t → s.lock.count < INT_MAX →
      ucs_recursive_spin_lock false s.lock t =
        some { super := s.lock.super, count := s.lock.count + 1, owner := t }) ∧
    (s.lock.owner ≠ t → s.lock.super.lock = false →
      ucs_recursive_spin_lock false s.lock t =
        some { super := { lock := true,
                          history := s.lock.super.history ++ [spin_op.acquire] },
               count := 1, owner := t }) ∧
    (s.lock.owner ≠ t → s.lock.super.lock = true →
      ucs_recursive_spin_lock false s.lock t = none) := by
  have hi := inv_of_reachable_bounded s hr
  refine ⟨?_, ?_, ?_⟩
  · intro hot hlt
    have h0 : 0 ≤ s.lock.count := by
      rcases hi with ⟨_, hc, _, _⟩ | ⟨_, hc, _, _, _⟩ <;> omega
    rw [lock_by_owner false _ t hot, int_wrap_of_range _ (by omega) (by omega)]
  · intro hot hl
    rcases hi with ⟨_, hc, _, _⟩ | ⟨hl2, _, _, _, _⟩
    · rw [lock_on_free false _ t hot hl, hc]
      rfl
    · rw [hl] at hl2
      exact absurd hl2 (by simp)
  · intro hot hl
    exact lock_on_held_pthread _ t hot hl

/-- C3 (amended) at a concrete state: after thread 7 has locked a fresh lock, a
further lock by thread 7 only raises the count to 2, and a lock by thread 9
spins. -/
theorem C3_recursive_spin_lock_in_range_witness :
    ucs_recursive_spin_lock false
        { super := { lock := true, history := [spin_op.acquire] }, count := 1, owner := 7 } 7 =
      some { super := { lock := true, history := [spin_op.acquire] },
             count := 1 + 1, owner := 7 } ∧
    ucs_recursive_spin_lock false
        { super := { lock := true, history := [spin_op.acquire] }, count := 1, owner := 7 } 9 =
      none :=
  ⟨(C3_recursive_spin_lock_in_range
      { lock := { super := { lock := true, history := [spin_op.acquire] },
                  count := 1, owner := 7 },
        holders := [7] } 7
      ⟨sample_spin_init, sample_mem, 0, [lock_call.lock 7], by decide, by decide⟩).1
      rfl (by decide),
   (C3_recursive_spin_lock_in_range
      { lock := { super := { lock := true, history := [spin_op.acquire] },
                  count := 1, owner := 7 },
        holders := [7] } 9
      ⟨sample_spin_init, sample_mem, 0, [lock_call.lock 7], by decide, by decide⟩).2.2
      (by decide) rfl⟩

/-- C4: for every lock state held by thread `t` (owner `t`, underlying
spinlock taken) with `count = n`, in particular for every `n ≥ 1`,
`ucs_recursive_spin_unlock` yields `count = n - 1`; when `n = 1` it sets the owner to `UCS_SPINLOCK_OWNER_NULL`
and releases the underlying spinlock, and when `n > 1` it leaves `owner = t`
and the underlying spinlock untouched, hence still held. -/
theorem C4_recursive_spin_unlock (l : ucs_recursive_spinlock_t) (t : pthread_t)
    (ho : l.owner = t) (hl : l.super.lock = true) :
    (ucs_recursive_spin_unlock l).count = l.count - 1 ∧
    (l.count = 1 →
      (ucs_recursive_spin_unlock l).owner = UCS_SPINLOCK_OWNER_NULL ∧
      (ucs_recursive_spin_unlock l).super =
        { lock := false, history := l.super.history ++ [spin_op.release] }) ∧
    (1 < l.count →
      (ucs_recursive_spin_unlock l).owner = t ∧
      (ucs_recursive_spin_unlock l).super = l.super ∧
      (ucs_recursive_spin_unlock l).super.lock = true) := by
  refine ⟨?_, ?_, ?_⟩
  · unfold ucs_recursive_spin_unlock
    by_cases h : l.count - 1 = 0 <;> simp [h]
  · intro h1
    simp [ucs_recursive_spin_unlock, ucs_spin_unlock, h1]
  · intro h1
    have h : ¬ (l.count - 1 = 0) := by omega
    simp [ucs_recursive_spin_unlock, h, ho, hl]

/-- C4 at concrete states: unlocking at depth 1 frees the lock, unlocking at
depth 3 leaves it held by thread 7 at depth 2. -/
theorem C4_recursive_spin_unlock_witness :
    (ucs_recursive_spin_unlock
        { super := { lock := true, history := [spin_op.acquire] },
          count := 3, owner := 7 }).count = 3 - 1 ∧
    ((ucs_recursive_spin_unlock
        { super := { lock := true, history := [spin_op.acquire] },
          count := 1, owner := 7 }).owner = UCS_SPINLOCK_OWNER_NULL ∧
      (ucs_recursive_spin_unlock
        { super := { lock := true, history := [spin_op.acquire] },
          count := 1, owner := 7 }).super =
        { lock := false, history := [spin_op.acquire] ++ [spin_op.release] }) ∧
    ((ucs_recursive_spin_unlock
        { super := { lock := true, history := [spin_op.acquire] },
          count := 3, owner := 7 }).owner = 7 ∧
      (ucs_recursive_spin_unlock
        { super := { lock := true, history := [spin_op.acquire] },
          count := 3, owner := 7 }).super =
        { lock := true, history := [spin_op.acquire] } ∧
      (ucs_recursive_spin_unlock
        { super := { lock := true, history := [spin_op.acquire] },
          count := 3, owner := 7 }).super.lock = true) :=
  ⟨(C4_recursive_spin_unlock
      { super := { lock := true, history := [spin_op.acquire] }, count := 3, owner := 7 }
      7 rfl rfl).1,
   (C4_recursive_spin_unlock
      { super := { lock := true, history := [spin_op.acquire] }, count := 1, owner := 7 }
      7 rfl rfl).2.1 rfl,
   (C4_recursive_spin_unlock
      { super := { lock := true, history := [spin_op.acquire] }, count := 3, owner := 7 }
      7 rfl rfl).2.2 (by decide)⟩

/-- C5 (the code at the failing input, build with `HAVE_PROGRESS64`): on a
fresh lock, thread 7 locks and then thread 9 locks.  The second call returns
although thread 7 is still inside: the lock is left with owner 9 and count 2,
and both threads are inside.  In the build without `HAVE_PROGRESS64` the same
second call spins instead. -/
theorem C5_progress64_two_threads_inside :
    (lock_system.init true sample_spin_init sample_mem 0).run true
        [lock_call.lock 7, lock_call.lock 9] =
      some { lock := { super := { lock := true, history := [spin_op.acquire] },
                       count := 2, owner := 9 },
             holders := [9, 7] } ∧
    (lock_system.init false sample_spin_init sample_mem 0).run false
        [lock_call.lock 7, lock_call.lock 9] = none := by
  decide

/-- Mutual exclusion where it holds.  In the build without `HAVE_PROGRESS64`, in
every state reachable by atomic lock/trylock/unlock steps of arbitrary threads
(unlock only by the owner) with never more than `INT_MAX` acquisitions
outstanding, all threads inside the lock are one and the same thread, namely
the recorded owner; somebody is inside exactly when the underlying spinlock is
taken, and exactly when the count is not zero; and for every thread `t` other
than the owner of a held lock, `ucs_recursive_spin_trylock` returns `0` and
leaves the lock unchanged. -/
theorem mutual_exclusion_without_progress64 (s : lock_system)
    (hr : s.ReachableBounded false) :
    (∀ a ∈ s.holders, ∀ b ∈ s.holders, a = b) ∧
    (∀ a ∈ s.holders, a = s.lock.owner) ∧
    (s.holders ≠ [] ↔ s.lock.super.lock = true) ∧
    (s.holders ≠ [] ↔ s.lock.count ≠ 0) ∧
    (∀ t : pthread_t, t ≠ s.lock.owner → s.holders ≠ [] →
      ucs_recursive_spin_trylock false s.lock t = (0, s.lock)) := by
  have hi := inv_of_reachable_bounded s hr
  rcases hi with ⟨hl, hc, ho, hh⟩ | ⟨hl, hc, _, ho, hh⟩
  · refine ⟨?_, ?_, ?_, ?_, ?_⟩
    · intro a ha; simp [hh] at ha
    · intro a ha; simp [hh] at ha
    · simp [hh, hl]
    · simp [hh, hc]
    · intro t _ hne; exact absurd hh hne
  · have hmem : ∀ a ∈ s.holders, a = s.lock.owner := by
      intro a ha
      rw [hh] at ha
      exact List.eq_of_mem_replicate ha
    have hpos : s.holders ≠ [] := by
      obtain ⟨k, hk⟩ : ∃ k : Nat, s.lock.count.toNat = k + 1 :=
        ⟨s.lock.count.toNat - 1, by omega⟩
      rw [hh, hk, List.replicate_succ]
      simp
    refine ⟨?_, hmem, ?_, ?_, ?_⟩
    · intro a ha b hb
      rw [hmem a ha, hmem b hb]
    · simp [hpos, hl]
    · have hc0 : s.lock.count ≠ 0 := by omega
      simp [hpos, hc0]
    · intro t ht _
      exact trylock_on_held false _ t (fun h => ht h.symm) hl

theorem lock_n_owner (p64 : Bool) (t : pthread_t) (k : Nat)
    (l : ucs_recursive_spinlock_t) (ho : l.owner = t)
    (hr : int_wrap l.count = l.count) :
    lock_n p64 t k l =
      some { super := l.super, count := int_wrap (l.count + k), owner := t } := by
  induction k generalizing l with
  | zero =>
    cases l with
    | mk sup c o => simp_all [lock_n]
  | succ k ih =>
    simp only [lock_n, lock_by_owner p64 l t ho]
    rw [ih _ rfl (by simp only; unfold int_wrap; omega)]
    simp only [int_wrap_add, Option.some.injEq, ucs_recursive_spinlock_t.mk.injEq,
      true_and, and_true]
    congr 1
    push_cast
    ring

theorem lock_n_fresh (p64 : Bool) (f : Int → Int) (mem : ucs_recursive_spinlock_t)
    (flags : Nat) (n : Nat) (t : pthread_t)
    (hok : (ucs_recursive_spinlock_init p64 f mem flags).1 = UCS_OK)
    (hn : 1 ≤ n) (ht : t ≠ UCS_SPINLOCK_OWNER_NULL) :
    lock_n p64 t n (ucs_recursive_spinlock_init p64 f mem flags).2 =
      some { super := { lock := true, history := [spin_op.acquire] },
             count := int_wrap n, owner := t } := by
  obtain ⟨m, rfl⟩ : ∃ m, n = m + 1 := ⟨n - 1, by omega⟩
  rw [init_ok_state p64 f mem flags hok]
  simp only [lock_n]
  rw [lock_on_free p64 _ t (fun h => ht h.symm) rfl]
  simp only [List.nil_append]
  rw [lock_n_owner p64 t m _ rfl (by simp only; unfold int_wrap; omega)]
  simp only [int_wrap_add, Option.some.injEq, ucs_recursive_spinlock_t.mk.injEq,
    true_and, and_true]
  congr 1
  push_cast
  ring

theorem unlock_n_lt (k : Nat) (l : ucs_recursive_spinlock_t) (hk : (k : Int) < l.count) :
    unlock_n k l = { super := l.super, count := l.count - k, owner := l.owner } := by
  induction k generalizing l with
  | zero => simp [unlock_n]
  | succ k ih =>
    have hne : ¬ (l.count - 1 = 0) := by omega
    simp only [unlock_n, ucs_recursive_spin_unlock, beq_iff_eq, hne, if_false]
    rw [ih _ (by simp only; omega)]
    simp only [ucs_recursive_spinlock_t.mk.injEq, true_and, and_true]
    push_cast
    ring

theorem unlock_n_succ (k : Nat) (l : ucs_recursive_spinlock_t) :
    unlock_n (k + 1) l = ucs_recursive_spin_unlock (unlock_n k l) := by
  induction k generalizing l with
  | zero => simp [unlock_n]
  | succ k ih =>
    rw [unlock_n, ih, unlock_n]

/-- C6 (as stated, refuted), build without `HAVE_PROGRESS64`, thread 7, fresh
lock.  After `n = 2147483648` lock calls the count is -2147483648, not `n`: the
`int` has overflowed and the depth is lost.  With `n = 4294967297` lock calls
the count has come round to 1, so the first of the `n` unlock calls already
clears the owner and releases the underlying spinlock, long before the last
one. -/
theorem C6_depth_overflows :
    lock_n false 7 2147483648
        (ucs_recursive_spinlock_init false sample_spin_init sample_mem 0).2 =
      some { super := { lock := true, history := [spin_op.acquire] },
             count := -2147483648, owner := 7 } ∧
    (lock_n false 7 4294967297
        (ucs_recursive_spinlock_init false sample_spin_init sample_mem 0).2).map
        (unlock_n 1) =
      some { super := { lock := false, history := [spin_op.acquire, spin_op.release] },
             count := 0, owner := UCS_SPINLOCK_OWNER_NULL } := by
  constructor
  · rw [lock_n_fresh false sample_spin_init sample_mem 0 2147483648 7
      (by decide) (by decide) (by decide)]
    rfl
  · rw [lock_n_fresh false sample_spin_init sample_mem 0 4294967297 7
      (by decide) (by decide) (by decide)]
    rfl

/-- C6 (amended): re-entry is balanced within the range of the counter.  In
both builds, for every `n` with `1 ≤ n ≤ INT_MAX` and every thread `t` (not the
null owner), starting from a freshly initialised recursive spinlock
(`ucs_recursive_spinlock_init` returned `UCS_OK`), `n` consecutive
`ucs_recursive_spin_lock` calls by `t` all return and leave the lock held by
`t` at depth `n` with exactly one acquisition of the underlying spinlock on
record; any `k < n` following `ucs_recursive_spin_unlock` calls leave depth
`n - k`, owner `t`, and still no release on record; and `n` unlock calls
return the lock to count 0, owner `UCS_SPINLOCK_OWNER_NULL`, underlying
spinlock free, with exactly one acquisition followed by exactly one release on
record. -/
theorem C6_balanced_reentry_in_range (HAVE_PROGRESS64 : Bool)
    (pthread_spin_init : Int → Int)
    (mem : ucs_recursive_spinlock_t) (flags : Nat) (n : Nat) (t : pthread_t)
    (hok : (ucs_recursive_spinlock_init HAVE_PROGRESS64 pthread_spin_init mem flags).1 =
      UCS_OK)
    (hn : 1 ≤ n) (hmax : (n : Int) ≤ INT_MAX) (ht : t ≠ UCS_SPINLOCK_OWNER_NULL) :
    lock_n HAVE_PROGRESS64 t n
        (ucs_recursive_spinlock_init HAVE_PROGRESS64 pthread_spin_init mem flags).2 =
      some { super := { lock := true, history := [spin_op.acquire] },
             count := n, owner := t } ∧
    (∀ k : Nat, k < n →
      unlock_n k { super := { lock := true, history := [spin_op.acquire] },
                   count := n, owner := t } =
        { super := { lock := true, history := [spin_op.acquire] },
          count := (n : Int) - k, owner := t }) ∧
    unlock_n n { super := { lock := true, history := [spin_op.acquire] },
                 count := n, owner := t } =
      { super := { lock := false, history := [spin_op.acquire, spin_op.release] },
        count := 0, owner := UCS_SPINLOCK_OWNER_NULL } := by
  refine ⟨?_, ?_, ?_⟩
  · rw [lock_n_fresh HAVE_PROGRESS64 pthread_spin_init mem flags n t hok hn ht,
      int_wrap_of_range _ (by omega) hmax]
  · intro k hk
    rw [unlock_n_lt k _ (by simp only; omega)]
  · obtain ⟨m, rfl⟩ : ∃ m, n = m + 1 := ⟨n - 1, by omega⟩
    rw [unlock_n_succ, unlock_n_lt m _ (by simp only; omega)]
    simp [ucs_recursive_spin_unlock, ucs_spin_unlock]

/-- C6 (amended) at concrete inputs: three locks and three unlocks by thread 7,
in the build with `HAVE_PROGRESS64` and in the build without it. -/
theorem C6_balanced_reentry_in_range_witness :
    lock_n true 7 3 (ucs_recursive_spinlock_init true sample_spin_init sample_mem 0).2 =
      some { super := { lock := true, history := [spin_op.acquire] },
             count := (3 : Nat), owner := 7 } ∧
    lock_n false 7 3 (ucs_recursive_spinlock_init false sample_spin_init sample_mem 0).2 =
      some { super := { lock := true, history := [spin_op.acquire] },
             count := (3 : Nat), owner := 7 } ∧
    unlock_n 3 { super := { lock := true, history := [spin_op.acquire] },
                 count := (3 : Nat), owner := 7 } =
      { super := { lock := false, history := [spin_op.acquire, spin_op.release] },
        count := 0, owner := UCS_SPINLOCK_OWNER_NULL } :=
  ⟨(C6_balanced_reentry_in_range true sample_spin_init sample_mem 0 3 7
      (by decide) (by decide) (by decide) (by decide)).1,
   (C6_balanced_reentry_in_range false sample_spin_init sample_mem 0 3 7
      (by decide) (by decide) (by decide) (by decide)).1,
   (C6_balanced_reentry_in_range false sample_spin_init sample_mem 0 3 7
      (by decide) (by decide) (by decide) (by decide)).2.2⟩

/-! ## Event set -/

theorem wait_loop_eq (K : event_set_consts) (events : Nat → epoll_event) (arg : Nat)
    (left i : Nat) :
    ucs_event_set_wait_loop K events arg left i =
      (List.range' i left).map (fun j => handler_call_of K arg (events j)) := by
  induction left generalizing i with
  | zero => simp [ucs_event_set_wait_loop]
  | succ left ih =>
    simp [ucs_event_set_wait_loop, List.range'_succ, ih, handler_call_of]

/-- C7: for every event set and every capacity `num_events` not above
`ucs_sys_event_set_max_wait_events`, when `epoll_wait` reports `nready` ready
descriptors with `0 ≤ nready ≤ num_events`, `ucs_event_set_wait` invokes the
handler exactly `nready` times, once per reported descriptor in the order
reported, call `i` receiving the descriptor's callback data,
`ucs_event_set_map_to_events` of its raw event bits and the caller's `arg`;
it stores `nready` to `*num_events` and returns `UCS_OK`. -/
theorem C7_wait_dispatches_ready (K : event_set_consts)
    (epoll_wait : Int → Nat → Int → epoll_wait_result)
    (event_set : ucs_sys_event_set) (num_events : Nat) (timeout_ms : Int) (arg : Nat)
    (_hcap : num_events ≤ ucs_sys_event_set_max_wait_events K)
    (h0 : 0 ≤ (epoll_wait event_set.event_fd num_events timeout_ms).ret)
    (_hle : (epoll_wait event_set.event_fd num_events timeout_ms).ret ≤ num_events) :
    (ucs_event_set_wait K epoll_wait event_set num_events timeout_ms arg).status = UCS_OK ∧
    ((ucs_event_set_wait K epoll_wait event_set num_events timeout_ms arg).num_events : Int)
      = (epoll_wait event_set.event_fd num_events timeout_ms).ret ∧
    ((ucs_event_set_wait K epoll_wait event_set num_events timeout_ms arg).calls.length : Int)
      = (epoll_wait event_set.event_fd num_events timeout_ms).ret ∧
    (ucs_event_set_wait K epoll_wait event_set num_events timeout_ms arg).calls =
      (List.range (epoll_wait event_set.event_fd num_events timeout_ms).ret.toNat).map
        (fun i => handler_call_of K arg
          ((epoll_wait event_set.event_fd num_events timeout_ms).events i)) := by
  have hlt : ¬ ((epoll_wait event_set.event_fd num_events timeout_ms).ret < 0) := by omega
  simp only [ucs_event_set_wait, hlt, if_false, wait_loop_eq, List.length_map,
    List.length_range', List.range_eq_range', true_and, and_true]
  omega

/-- C7 at a concrete input: capacity 4, two ready descriptors. -/
theorem C7_wait_dispatches_ready_witness :
    (ucs_event_set_wait linux_consts sample_epoll_wait_ready
        { event_fd := 3, flags := 0 } 4 (-1) 55).status = UCS_OK ∧
    (ucs_event_set_wait linux_consts sample_epoll_wait_ready
        { event_fd := 3, flags := 0 } 4 (-1) 55).num_events = 2 ∧
    (ucs_event_set_wait linux_consts sample_epoll_wait_ready
        { event_fd := 3, flags := 0 } 4 (-1) 55).calls =
      [{ callback_data := 100, io_events := 1, arg := 55 },
       { callback_data := 200, io_events := 4, arg := 55 }] :=
  ⟨(C7_wait_dispatches_ready linux_consts sample_epoll_wait_ready
      { event_fd := 3, flags := 0 } 4 (-1) 55 (by decide) (by decide) (by decide)).1,
   by decide, by decide⟩

/-- C8 (the code at the failing input `UCS_EVENT_SET_EVWRITE`, Linux
constants): `ucs_event_set_map_to_raw_events` turns the write request into
`EPOLLERR`, so the raw mask lacks `EPOLLOUT`, and mapping it back gives
`UCS_EVENT_SET_EVERR`, not `UCS_EVENT_SET_EVWRITE`: the round trip fails.  The
way back alone is as claimed: `EPOLLOUT` is reported as
`UCS_EVENT_SET_EVWRITE`. -/
theorem C8_evwrite_round_trip_fails :
    ucs_event_set_map_to_raw_events linux_consts linux_consts.UCS_EVENT_SET_EVWRITE =
      linux_consts.EPOLLERR ∧
    ucs_event_set_map_to_raw_events linux_consts linux_consts.UCS_EVENT_SET_EVWRITE &&&
      linux_consts.EPOLLOUT = 0 ∧
    ucs_event_set_map_to_events linux_consts
      (ucs_event_set_map_to_raw_events linux_consts linux_consts.UCS_EVENT_SET_EVWRITE) =
      linux_consts.UCS_EVENT_SET_EVERR ∧
    ucs_event_set_map_to_events linux_consts
      (ucs_event_set_map_to_raw_events linux_consts linux_consts.UCS_EVENT_SET_EVWRITE) ≠
      linux_consts.UCS_EVENT_SET_EVWRITE ∧
    ucs_event_set_map_to_events linux_consts linux_consts.EPOLLOUT =
      linux_consts.UCS_EVENT_SET_EVWRITE := by
  decide

/-- Whatever the numeric values of the constants, as long as the write flag is
a non-zero flag that shares no bit with the other three event-set flags, a
request for write readiness alone is turned into exactly `EPOLLERR`. -/
theorem map_to_raw_events_evwrite (K : event_set_consts)
    (hw : K.UCS_EVENT_SET_EVWRITE ≠ 0)
    (hr : K.UCS_EVENT_SET_EVWRITE &&& K.UCS_EVENT_SET_EVREAD = 0)
    (he : K.UCS_EVENT_SET_EVWRITE &&& K.UCS_EVENT_SET_EVERR = 0)
    (ht : K.UCS_EVENT_SET_EVWRITE &&& K.UCS_EVENT_SET_EDGE_TRIGGERED = 0) :
    ucs_event_set_map_to_raw_events K K.UCS_EVENT_SET_EVWRITE = K.EPOLLERR := by
  simp [ucs_event_set_map_to_raw_events, hw, hr, he, ht]

/-- C10: for every event set and capacity, when `epoll_wait` fails (negative
return value), `ucs_event_set_wait` makes no handler call, stores 0 to
`*num_events`, and returns `UCS_INPROGRESS` if and only if `errno` is `EINTR`,
and `UCS_ERR_IO_ERROR` for every other `errno`. -/
theorem C10_wait_failure (K : event_set_consts)
    (epoll_wait : Int → Nat → Int → epoll_wait_result)
    (event_set : ucs_sys_event_set) (num_events : Nat) (timeout_ms : Int) (arg : Nat)
    (hneg : (epoll_wait event_set.event_fd num_events timeout_ms).ret < 0) :
    (ucs_event_set_wait K epoll_wait event_set num_events timeout_ms arg).calls = [] ∧
    (ucs_event_set_wait K epoll_wait event_set num_events timeout_ms arg).num_events = 0 ∧
    ((ucs_event_set_wait K epoll_wait event_set num_events timeout_ms arg).status =
        UCS_INPROGRESS ↔
      (epoll_wait event_set.event_fd num_events timeout_ms).errno = K.EINTR) ∧
    ((epoll_wait event_set.event_fd num_events timeout_ms).errno ≠ K.EINTR →
      (ucs_event_set_wait K epoll_wait event_set num_events timeout_ms arg).status =
        UCS_ERR_IO_ERROR) := by
  by_cases he : (epoll_wait event_set.event_fd num_events timeout_ms).errno = K.EINTR <;>
    simp [ucs_event_set_wait, hneg, he]

/-- C10 at a concrete input: `epoll_wait` interrupted by a signal. -/
theorem C10_wait_failure_witness :
    (ucs_event_set_wait linux_consts sample_epoll_wait_eintr
        { event_fd := 3, flags := 0 } 4 (-1) 55).calls = [] ∧
    (ucs_event_set_wait linux_consts sample_epoll_wait_eintr
        { event_fd := 3, flags := 0 } 4 (-1) 55).num_events = 0 ∧
    (ucs_event_set_wait linux_consts sample_epoll_wait_eintr
        { event_fd := 3, flags := 0 } 4 (-1) 55).status = UCS_INPROGRESS :=
  ⟨(C10_wait_failure linux_consts sample_epoll_wait_eintr
      { event_fd := 3, flags := 0 } 4 (-1) 55 (by decide)).1,
   (C10_wait_failure linux_consts sample_epoll_wait_eintr
      { event_fd := 3, flags := 0 } 4 (-1) 55 (by decide)).2.1,
   (C10_wait_failure linux_consts sample_epoll_wait_eintr
      { event_fd := 3, flags := 0 } 4 (-1) 55 (by decide)).2.2.1.mpr (by decide)⟩

/-! ## TCP base -/

/-- C9: setting `TCP_SYNCNT` is best effort.  For every descriptor and every
`tcp_syn_cnt`, whatever `ucs_socket_setopt` returns, `ucs_tcp_base_set_syn_cnt`
returns `UCS_OK`; it makes no socket-option call when `tcp_syn_cnt` equals
`UCS_ULUNITS_AUTO`, it never makes more than the one call
`(fd, IPPROTO_TCP, TCP_SYNCNT, &tcp_syn_cnt, sizeof(int))`, and outside
`__APPLE__` builds it makes that call whenever `tcp_syn_cnt` differs from
`UCS_ULUNITS_AUTO`. -/
theorem C9_set_syn_cnt_best_effort (apple : Bool)
    (ucs_socket_setopt : setopt_call → ucs_status_t) (fd tcp_syn_cnt : Int) :
    (ucs_tcp_base_set_syn_cnt apple ucs_socket_setopt fd tcp_syn_cnt).1 = UCS_OK ∧
    ((tcp_syn_cnt % 2 ^ 64).toNat = UCS_ULUNITS_AUTO →
      (ucs_tcp_base_set_syn_cnt apple ucs_socket_setopt fd tcp_syn_cnt).2 = []) ∧
    ((ucs_tcp_base_set_syn_cnt apple ucs_socket_setopt fd tcp_syn_cnt).2 = [] ∨
      (ucs_tcp_base_set_syn_cnt apple ucs_socket_setopt fd tcp_syn_cnt).2 =
        [{ fd := fd, level := IPPROTO_TCP, optname := TCP_SYNCNT,
           optval := tcp_syn_cnt, optlen := 4 }]) ∧
    (apple = false → (tcp_syn_cnt % 2 ^ 64).toNat ≠ UCS_ULUNITS_AUTO →
      (ucs_tcp_base_set_syn_cnt apple ucs_socket_setopt fd tcp_syn_cnt).2 =
        [{ fd := fd, level := IPPROTO_TCP, optname := TCP_SYNCNT,
           optval := tcp_syn_cnt, optlen := 4 }]) := by
  unfold ucs_tcp_base_set_syn_cnt
  generalize (tcp_syn_cnt % 2 ^ 64).toNat = c
  by_cases h : c = UCS_ULUNITS_AUTO <;> cases apple <;> simp [h]

/-! ## TCP network interfaces -/

theorem fgets_read_length (n : Nat) (stream : List Nat) :
    (fgets_read n stream).2.length ≤ stream.length := by
  induction n generalizing stream with
  | zero => simp [fgets_read]
  | succ n ih =>
    cases stream with
    | nil => simp [fgets_read]
    | cons c rest =>
      simp only [fgets_read]
      split
      · simp
      · have := ih rest
        simp only [List.length_cons]
        omega

theorem fgets_shrinks (stream : List Nat) (r : List Nat × List Nat)
    (h : fgets 128 stream = some r) : r.2.length < stream.length := by
  unfold fgets at h
  cases stream with
  | nil => simp at h
  | cons c rest =>
    simp only [reduceCtorEq, if_false, Option.some.injEq] at h
    subst h
    show (fgets_read (126 + 1) (c :: rest)).2.length < (c :: rest).length
    simp only [fgets_read]
    split
    · simp
    · have := fgets_read_length 126 rest
      simp only [List.length_cons]
      omega

theorem skip_rest_of_line_total (fuel : Nat) (str stream : List Nat)
    (h : stream.length < fuel) :
    ∃ r, skip_rest_of_line fuel str stream = some r ∧ r.2.length ≤ stream.length := by
  induction fuel generalizing str stream with
  | zero => omega
  | succ fuel ih =>
    simp only [skip_rest_of_line]
    split
    · cases hg : fgets 128 stream with
      | none => exact ⟨(str, stream), rfl, le_refl _⟩
      | some r =>
        have hlt := fgets_shrinks stream r hg
        obtain ⟨r2, h2, hle⟩ := ih r.1 r.2 (by omega)
        exact ⟨r2, h2, by omega⟩
    · exact ⟨(str, stream), rfl, le_refl _⟩

theorem netif_is_default_loop_total (sscanf : List Nat → sscanf_result)
    (if_name : List Nat) (fuel : Nat) (stream : List Nat) (v : netif_locals)
    (h : stream.length < fuel) :
    ∃ w, netif_is_default_loop sscanf if_name fuel stream v = some w ∧
      (w.stores = v.stores ∨ w.stores = v.stores ++ [1]) ∧
      ((∀ s, (sscanf s).ret ≠ 3) → w.stores = v.stores) := by
  induction fuel generalizing stream v with
  | zero => omega
  | succ fuel ih =>
    simp only [netif_is_default_loop]
    cases hg : fgets 128 stream with
    | none => exact ⟨v, rfl, Or.inl rfl, fun _ => rfl⟩
    | some r =>
      have hlt := fgets_shrinks stream r hg
      simp only
      split
      · rename_i hm
        refine ⟨_, rfl, Or.inr rfl, ?_⟩
        intro hno
        exact absurd hm.1 (hno _)
      · obtain ⟨line, hl, hle⟩ := skip_rest_of_line_total fuel r.1 r.2 (by omega)
        simp only [hl]
        obtain ⟨w, hw, hs, hn⟩ := ih line.2
          { v with name := (sscanf (cstr r.1)).name.getD v.name,
                   netmask := (sscanf (cstr r.1)).netmask.getD v.netmask } (by omega)
        exact ⟨w, hw, hs, hn⟩

/-- C11: for every interface name and every content of the routing table file
that can be opened (and whatever `sscanf` does on each line),
`uct_tcp_netif_is_default` returns, with status `UCS_OK` and `*result_p = 0`,
never 1: the last store to `*result_p` is the 0 written after the loop, which
overwrites the 1 of a match, the only other store there can be; and when
`sscanf` never returns 3 (it stores two values at most with this format) the
store of 1 is never made at all. -/
theorem C11_netif_is_default_reports_zero (sscanf : List Nat → sscanf_result)
    (file if_name name0 : List Nat) (netmask0 : Nat) (result0 : Int) :
    ∃ r, uct_tcp_netif_is_default sscanf (some file) if_name name0 netmask0 result0 = some r ∧
      r.status = UCS_OK ∧ r.result_p = 0 ∧ r.result_p ≠ 1 ∧
      (r.stores = [0] ∨ r.stores = [1, 0]) ∧
      ((∀ s, (sscanf s).ret ≠ 3) → r.stores = [0]) := by
  obtain ⟨w, hw, hs, hn⟩ := netif_is_default_loop_total sscanf if_name (file.length + 1) file
    { name := name0, netmask := netmask0, result_p := result0, stores := [] } (by omega)
  refine ⟨{ status := UCS_OK, result_p := 0, stores := w.stores ++ [0] }, ?_, rfl, rfl,
    by simp, ?_, ?_⟩
  · simp only [uct_tcp_netif_is_default, hw]
  · rcases hs with hs | hs
    · left; simp [hs]
    · right; simp [hs]
  · intro hno
    simp [hn hno]

theorem sscanf_route_ret_le_two (s : List Nat) : (sscanf_route s).ret ≤ 2 := by
  unfold sscanf_route
  split
  · decide
  · simp only
    split <;> simp

set_option maxRecDepth 100000 in
/-- With the scanner for the route format, on a routing table whose second line
is a default route (mask 0) through `eth0`, the query for `eth0` still yields
`*result_p = 0`, and the only store is the one after the loop: the scanner
returns 2 on that line, not 3. -/
theorem netif_is_default_on_default_route :
    sscanf_route (bytes "eth0\t00000000\t0101A8C0\t0003\t0\t0\t100\t00000000\t0\t0\t0\n") =
      { ret := 2, name := some (bytes "eth0"), netmask := some 0 } ∧
    uct_tcp_netif_is_default sscanf_route (some sample_route_file) (bytes "eth0") [] 7 5 =
      some { status := UCS_OK, result_p := 0, stores := [0] } := by
  decide

/-- A `sscanf` that reports three stored values, the interface name `eth0` and
mask 0 on every line: the match is then taken on the first line, 1 is stored,
and the store after the loop overwrites it. -/
theorem netif_is_default_match_overwritten :
    uct_tcp_netif_is_default
        (fun _ => { ret := 3, name := some (bytes "eth0"), netmask := some 0 })
        (some (bytes "eth0 0\n")) (bytes "eth0") [] 7 5 =
      some { status := UCS_OK, result_p := 0, stores := [1, 0] } := by
  decide

end UCX
